import Mathlib

/-!
Shallow embedding of the micro-frontend shell's lifecycle orchestration core
(`src/shell/src/lib/federation.ts`, `src/shell/src/lib/stateCache.ts`,
`src/shell/src/lib/eventBus.ts`, the route registry, the `secondaryNavRoutes`
merge of `src/shell/src/App.svelte`, and the `MfeContainer` navigation
controller), together with proofs of the spec's testable properties.

JavaScript `Map`s are modelled as association lists in insertion order,
`Set`s as duplicate-free lists in insertion order, machine time as `Int`
milliseconds, and exceptions as `Except` values threaded explicitly.
-/

set_option maxRecDepth 40000

namespace MfeShell

/-! ## Association-list model of a JavaScript `Map` with string keys

Entries are kept in insertion order.  `mapSet` on an existing key updates the
entry in place (its position is preserved); on a fresh key it appends.
`mapDelete` removes the entry.  `mapGet` returns the first (on reachable
states: the only) entry for the key. -/

def mapGet {β : Type} : List (String × β) → String → Option β
  | [], _ => none
  | p :: rest, k => if p.1 = k then some p.2 else mapGet rest k

def mapSet {β : Type} : List (String × β) → String → β → List (String × β)
  | [], k, v => [(k, v)]
  | p :: rest, k, v => if p.1 = k then (k, v) :: rest else p :: mapSet rest k v

def mapDelete {β : Type} : List (String × β) → String → List (String × β)
  | [], _ => []
  | p :: rest, k => if p.1 = k then rest else p :: mapDelete rest k

def mapKeys {β : Type} (m : List (String × β)) : List String :=
  m.map (·.1)

/-- Well-formedness of a JavaScript `Map` model: keys are duplicate-free.
Every map built by `mapSet`/`mapDelete` from the empty map satisfies this. -/
def MapWF {β : Type} (m : List (String × β)) : Prop :=
  (mapKeys m).Nodup

instance {β : Type} (m : List (String × β)) : Decidable (MapWF m) := by
  unfold MapWF; infer_instance


/-! ## Event bus (`src/shell/src/lib/eventBus.ts`)

`handlers` is a `Map<string, Set<EventHandler>>`.  Handlers are identified by
`Nat` tokens; a behaviour function says whether a given handler throws when
invoked.  `emit` wraps each invocation in `try`/`catch`: a throwing handler is
logged and the loop continues, so `emit` itself always completes normally. -/

structure EventBus where
  handlers : List (String × List Nat)
deriving DecidableEq, Repr

def emptyBus : EventBus := ⟨[]⟩

/-- One handler invocation; `beh h = false` means handler `h` throws. -/
def invokeHandler (beh : Nat → Bool) (h : Nat) : Except String Unit :=
  if beh h then .ok () else .error "handler threw"

/-- The `handlers.forEach` loop of `emit`: each invocation sits in its own
`try { handler(payload) } catch (e) { console.error(...) }`, so the loop
records every handler in order and an error never escapes an iteration.
Returns the invocation order and the exception outcome of the whole loop. -/
def emitLoop (beh : Nat → Bool) : List Nat → List Nat × Except String Unit
  | [] => ([], .ok ())
  | h :: rest =>
      match invokeHandler beh h with
      | .ok _ => ((emitLoop beh rest).1.cons h, (emitLoop beh rest).2)
      | .error _ => ((emitLoop beh rest).1.cons h, (emitLoop beh rest).2)

/-- `EventBus.emit`: look up the event's handler set and run the loop;
an event with no registered handlers does nothing. -/
def EventBus.emit (bus : EventBus) (beh : Nat → Bool) (event : String) :
    List Nat × Except String Unit :=
  match mapGet bus.handlers event with
  | none => ([], .ok ())
  | some hs => emitLoop beh hs

/-- A JavaScript `Set.add`: appends unless the element is already present. -/
def setAdd (l : List Nat) (h : Nat) : List Nat :=
  if h ∈ l then l else l ++ [h]

/-- `EventBus.on`: create the event's `Set` if missing, then add the handler. -/
def EventBus.on (bus : EventBus) (event : String) (h : Nat) : EventBus :=
  ⟨mapSet bus.handlers event (setAdd ((mapGet bus.handlers event).getD []) h)⟩

/-- The unsubscribe closure returned by `on`:
`this.handlers.get(event)?.delete(handler)` — a no-op (no throw) when the
event has no handler set. -/
def EventBus.unsubscribe (bus : EventBus) (event : String) (h : Nat) : EventBus :=
  match mapGet bus.handlers event with
  | none => bus
  | some hs => ⟨mapSet bus.handlers event (hs.erase h)⟩


/-! ## State cache (`src/shell/src/lib/stateCache.ts`)

Time is `Int` milliseconds (`Date.now()` passed explicitly at each call).
`expiresAt = none` models `null` (never expires).  JavaScript truthiness is
kept faithfully: `entry.expiresAt && Date.now() > entry.expiresAt` treats a
stored expiry of `0` as falsy, and the eviction guard `if (firstKey)` treats
an empty-string first key as falsy. -/

structure CacheEntry (α : Type) where
  value : α
  expiresAt : Option Int
  version : Option Nat
deriving DecidableEq, Repr

structure CacheOptions where
  ttl : Option Int := none
  version : Option Nat := none
deriving DecidableEq, Repr

def cacheMaxSize : Nat := 50

def cacheDefaultTtl : Int := 5 * 60 * 1000

/-- The expiry test of `StateCache.get`:
`entry.expiresAt && Date.now() > entry.expiresAt`. -/
def entryExpired {α : Type} (now : Int) (e : CacheEntry α) : Bool :=
  match e.expiresAt with
  | none => false
  | some t => t ≠ 0 && now > t

/-- `StateCache.get`: absent key returns `null`; an expired entry is deleted
and `null` is returned; otherwise the value is returned.  Returns the
(possibly shrunk) map together with the result. -/
def cacheGet {α : Type} (now : Int) (c : List (String × CacheEntry α))
    (key : String) : List (String × CacheEntry α) × Option α :=
  match mapGet c key with
  | none => (c, none)
  | some e =>
      if entryExpired now e then (mapDelete c key, none)
      else (c, some e.value)

/-- The first key of the map (`this.cache.keys().next().value`). -/
def cacheFirstKey {α : Type} (c : List (String × CacheEntry α)) : Option String :=
  (c.head?).map (·.1)

/-- `StateCache.set`: if at capacity and the key is new, delete the first key
in insertion order (`if (firstKey)` guard kept as in the source), then store
the entry with `expiresAt = now + ttl` for positive ttl, `null` otherwise. -/
def cacheSet {α : Type} (now : Int) (c : List (String × CacheEntry α))
    (key : String) (value : α) (options : Option CacheOptions) :
    List (String × CacheEntry α) :=
  let c1 :=
    if cacheMaxSize ≤ c.length ∧ ¬(mapGet c key).isSome then
      match cacheFirstKey c with
      | some fk => if fk ≠ "" then mapDelete c fk else c
      | none => c
    else c
  let ttl := (options.bind (·.ttl)).getD cacheDefaultTtl
  mapSet c1 key
    { value := value
      expiresAt := if ttl > 0 then some (now + ttl) else none
      version := options.bind (·.version) }

/-! ## Secondary-navigation route merge (`src/shell/src/App.svelte`)

`secondaryNavRoutes` converts the active module's static menu children to
routes, merges them with the module's dynamically registered routes in a
`Map` keyed by path (dynamic entries overwrite static ones sharing a path),
and sorts the values by `(a.order ?? 0) - (b.order ?? 0)` with the stable
`Array.prototype.sort`. -/

structure MfeRoute where
  label : String
  path : String
  icon : Option String := none
  order : Option Int := none
  permissions : Option (List String) := none
deriving DecidableEq, Repr

structure MenuChild where
  label : String
  path : String
  icon : Option String := none
  permissions : Option (List String) := none
deriving DecidableEq, Repr

/-- Conversion of a static menu child to `MfeRoute` format (the `.map` in
`secondaryNavRoutes`; no `order` field is carried over). -/
def childToRoute (child : MenuChild) : MfeRoute :=
  { label := child.label
    path := child.path
    icon := child.icon
    permissions := child.permissions }

/-- The sort key `a.order ?? 0`. -/
def orderKey (r : MfeRoute) : Int :=
  r.order.getD 0

/-- Stable insertion used to model the (stable) JavaScript sort: an element
is placed after every already-placed element with a key `≤` its own. -/
def insertByOrder (r : MfeRoute) : List MfeRoute → List MfeRoute
  | [] => [r]
  | x :: xs => if orderKey x ≤ orderKey r then x :: insertByOrder r xs else r :: x :: xs

/-- Stable sort by `order` ascending (default `0`), as performed by
`Array.prototype.sort((a, b) => (a.order ?? 0) - (b.order ?? 0))`. -/
def sortByOrder (l : List MfeRoute) : List MfeRoute :=
  l.foldr insertByOrder []

/-- Build the `routeMap`: insert static routes first, then dynamic routes
(overwriting same-path static entries). -/
def buildRouteMap (staticRoutes dynRoutes : List MfeRoute) :
    List (String × MfeRoute) :=
  (staticRoutes ++ dynRoutes).foldl (fun m r => mapSet m r.path r) []

/-- `secondaryNavRoutes` for an active module with the given static menu
children and dynamically registered routes. -/
def secondaryNavRoutes (children : List MenuChild) (dynRoutes : List MfeRoute) :
    List MfeRoute :=
  sortByOrder ((buildRouteMap (children.map childToRoute) dynRoutes).map (·.2))

/-! ## Federation module loader (`src/shell/src/lib/federation.ts`)

Modules are opaque black boxes; a `MfeEnv` records, per module id, whether
the dynamic import succeeds, whether each lifecycle function completes
normally or throws, and whether a stylesheet exists at one of the candidate
URLs.  The lifecycle handle stored in `loadedMfes` consists of the module's
exported functions, so the id together with the environment determines it;
the maps are therefore projected to their key sets.  A `FedEvent` log records
every lifecycle invocation and style mutation so that "exactly once" claims
are about observable invocations. -/

structure MfeEnv where
  importOk : Bool
  bootstrapOk : Bool
  mountOk : Bool
  unmountOk : Bool
  cssExists : Bool
  registersRoutes : Bool
deriving DecidableEq, Repr

/-- Environment in which every operation on every module succeeds and every
module ships a stylesheet. -/
def allOk : MfeEnv :=
  { importOk := true, bootstrapOk := true, mountOk := true,
    unmountOk := true, cssExists := true, registersRoutes := false }

inductive FedEvent where
  | bootstrapCall (id : String)
  | mountCall (id : String)
  | unmountCall (id : String)
  | styleAdd (id : String)
  | styleRemove (id : String)
deriving DecidableEq, Repr

structure FedState where
  /-- key set of `loadedMfes : Map<string, MfeLifecycle>`. -/
  loadedMfes : List String
  /-- key set of `mountedMfes : Map<string, MfeProps>`. -/
  mountedMfes : List String
  /-- the `loadedStylesheets : Set<string>`. -/
  loadedStylesheets : List String
  /-- ids of `link#mfe-styles-<id>` elements currently in `document.head`. -/
  styleElems : List String
  /-- observable invocation log. -/
  log : List FedEvent
deriving DecidableEq, Repr

def initFed : FedState :=
  { loadedMfes := [], mountedMfes := [], loadedStylesheets := [],
    styleElems := [], log := [] }

/-- A JavaScript `Set.add` for string sets. -/
def strSetAdd (l : List String) (s : String) : List String :=
  if s ∈ l then l else l ++ [s]

/-- `loadMfeStyles`: a no-op when the id is already in `loadedStylesheets`;
otherwise, when a candidate CSS URL exists and loads, append the link element
and record the id; when none exists, a silent no-op.  All failures inside are
caught, so the function always completes normally. -/
def loadMfeStyles (env : String → MfeEnv) (s : FedState) (id : String) : FedState :=
  if id ∈ s.loadedStylesheets then s
  else if (env id).cssExists then
    { s with styleElems := strSetAdd s.styleElems id
             loadedStylesheets := strSetAdd s.loadedStylesheets id
             log := s.log ++ [.styleAdd id] }
  else s

/-- `loadMfe` (the `federation.ts` version whose `loadMfe` begins by always
re-ensuring CSS).  Returns the new state and `true` for normal completion,
`false` when an exception propagated to the caller.  Source order kept:
styles first; then, when no cached lifecycle handle exists, dynamic import
(propagating failure), `loadedMfes.set` **before** awaiting `bootstrap`
(so a throwing bootstrap leaves the handle cached), bootstrap (propagating
failure); finally `mount` (uncaught, so a throw skips `mountedMfes.set`). -/
def loadMfe (env : String → MfeEnv) (s : FedState) (id : String) : FedState × Bool :=
  let s := loadMfeStyles env s id
  if id ∈ s.loadedMfes then
    -- cached lifecycle handle: go straight to mount
    let s := { s with log := s.log ++ [.mountCall id] }
    if (env id).mountOk then
      ({ s with mountedMfes := strSetAdd s.mountedMfes id }, true)
    else (s, false)
  else
    if ¬(env id).importOk then (s, false)
    else
      let s := { s with loadedMfes := strSetAdd s.loadedMfes id }
      let s := { s with log := s.log ++ [.bootstrapCall id] }
      if ¬(env id).bootstrapOk then (s, false)
      else
        let s := { s with log := s.log ++ [.mountCall id] }
        if (env id).mountOk then
          ({ s with mountedMfes := strSetAdd s.mountedMfes id }, true)
        else (s, false)

/-- `unloadMfe`: when both a lifecycle handle and a mount record exist, call
`unmount` inside `try`/`catch` — on success delete the mount record, on a
throw only log (the record stays).  Then, unconditionally with respect to the
unmount outcome, remove the module's stylesheet element (when its id is in
`loadedStylesheets`) and drop the id from `loadedStylesheets`.  The returned
flag is `true` iff the call completes without propagating an exception
(always, by construction of the `catch`). -/
def unloadMfe (env : String → MfeEnv) (s : FedState) (id : String) : FedState × Bool :=
  let s1 :=
    if id ∈ s.loadedMfes ∧ id ∈ s.mountedMfes then
      let s' := { s with log := s.log ++ [.unmountCall id] }
      if (env id).unmountOk then { s' with mountedMfes := s'.mountedMfes.erase id }
      else s'  -- caught and logged; mount record retained
    else s
  let s2 :=
    if id ∈ s1.loadedStylesheets then
      let s'' :=
        if id ∈ s1.styleElems then
          { s1 with styleElems := s1.styleElems.erase id
                    log := s1.log ++ [.styleRemove id] }
        else s1
      { s'' with loadedStylesheets := s''.loadedStylesheets.erase id }
    else s1
  (s2, true)

/-- One activate→deactivate cycle for module `id`. -/
def mfeCycle (env : String → MfeEnv) (id : String) (s : FedState) : FedState :=
  (unloadMfe env (loadMfe env s id).1 id).1

/-- `n` consecutive activate→deactivate cycles for module `id`. -/
def mfeCycles (env : String → MfeEnv) (id : String) (s : FedState) : Nat → FedState
  | 0 => s
  | n + 1 => mfeCycles env id (mfeCycle env id s) n

/-! ## `MfeContainer` navigation controller (`src/unnamed/part_005`)

The Svelte component drives `loadMfe`/`unloadMfe` from an `onMount` hook and
a `$effect.pre` that fires when the `mfe` prop changes.  The event-loop
execution of the async `loadCurrentMfe` is modelled as a state machine whose
suspension points are its two awaits (`await unloadMfe(prev)` and
`await loadMfe(mfe, …)`); a `resume` event completes the currently pending
await.  `isLoading` is the deliberately non-reactive re-entry guard and
`loadedMfeId` the last-target marker; both are plain variables, so their
changes never re-run the effect.  The dynamic route registry
(`routeRegistry.svelte`) is carried as the set of module ids with registered
routes; a module with `registersRoutes` registers its routes during mount. -/

inductive PendingAwait where
  | unloadWait (prev : String)
  | loadWait (tgt : String)
deriving DecidableEq, Repr

structure ShellState where
  /-- current value of the `mfe` prop (the module id the router resolved). -/
  mfeProp : String
  loadedMfeId : Option String
  isLoading : Bool
  isMounted : Bool
  /-- module ids with dynamically registered routes (`dynamicRoutes` keys). -/
  routes : List String
  fed : FedState
  /-- the await `loadCurrentMfe` is currently suspended on, if any. -/
  pending : Option PendingAwait
deriving DecidableEq, Repr

/-- Initial component state with the `mfe` prop resolved to `m`. -/
def initShell (m : String) : ShellState :=
  { mfeProp := m, loadedMfeId := none, isLoading := false, isMounted := false,
    routes := [], fed := initFed, pending := none }

/-- The synchronous prefix of `loadCurrentMfe`, up to its first await:
re-entry guard, flag setting, and — when a previous module exists — its
route unregistration followed by suspension on `unloadMfe(prev)`.  With no
previous module, `loadedMfeId = mfe.id` is assigned and the call suspends on
`loadMfe(mfe, …)`, both reading the prop at this instant. -/
def loadCurrentMfeStart (s : ShellState) : ShellState :=
  if s.isLoading then s
  else
    let s := { s with isLoading := true }
    match s.loadedMfeId with
    | some prev =>
        { s with routes := s.routes.erase prev
                 pending := some (.unloadWait prev) }
    | none =>
        { s with loadedMfeId := some s.mfeProp
                 pending := some (.loadWait s.mfeProp) }

/-- `onMount`: set `isMounted` and invoke `loadCurrentMfe`. -/
def stepMountShell (s : ShellState) : ShellState :=
  loadCurrentMfeStart { s with isMounted := true }

/-- A navigation event: the router updates the `mfe` prop, then the
`$effect.pre` runs — it calls `loadCurrentMfe` only when the component is
mounted, the id is truthy, the id differs from `loadedMfeId`, and no load is
in flight (otherwise the event is dropped; nothing re-runs the effect when
`isLoading` later clears, since the guard variables are non-reactive). -/
def stepNavigate (s : ShellState) (m : String) : ShellState :=
  let s := { s with mfeProp := m }
  if s.isMounted ∧ m ≠ "" ∧ some m ≠ s.loadedMfeId ∧ ¬s.isLoading then
    loadCurrentMfeStart s
  else s

/-- Completion of the pending await.  Resuming the unload await applies the
`unloadMfe` effects, then the continuation assigns `loadedMfeId = mfe.id`
(reading the **current** prop) and suspends on `loadMfe`.  Resuming the load
await applies the `loadMfe` effects (the module registering its routes during
a successful mount when it does so), then the `finally` clears the guard. -/
def stepResume (env : String → MfeEnv) (s : ShellState) : ShellState :=
  match s.pending with
  | none => s
  | some (.unloadWait prev) =>
      let fed := (unloadMfe env s.fed prev).1
      { s with fed := fed
               loadedMfeId := some s.mfeProp
               pending := some (.loadWait s.mfeProp) }
  | some (.loadWait tgt) =>
      let (fed, ok) := loadMfe env s.fed tgt
      let routes :=
        if ok ∧ (env tgt).registersRoutes then strSetAdd s.routes tgt else s.routes
      { s with fed := fed, routes := routes, isLoading := false, pending := none }

inductive ShellEvent where
  | mountShell
  | navigate (m : String)
  | resume
deriving DecidableEq, Repr

def stepShell (env : String → MfeEnv) (s : ShellState) : ShellEvent → ShellState
  | .mountShell => stepMountShell s
  | .navigate m => stepNavigate s m
  | .resume => stepResume env s

def runShell (env : String → MfeEnv) (s : ShellState) : List ShellEvent → ShellState
  | [] => s
  | e :: rest => runShell env (stepShell env s e) rest

/-- The component has settled: no await pending and the guard cleared. -/
def settled (s : ShellState) : Prop :=
  s.pending = none ∧ s.isLoading = false

instance (s : ShellState) : Decidable (settled s) := by
  unfold settled; infer_instance


/-! ## Concrete fixtures used by closed theorems -/

/-- Every module behaves well. -/
def envAllOk : String → MfeEnv := fun _ => allOk

/-- Every module's `bootstrap` throws; everything else succeeds. -/
def envBootstrapFail : String → MfeEnv := fun _ => { allOk with bootstrapOk := false }

/-- Every module's `unmount` throws; everything else succeeds. -/
def envUnmountFail : String → MfeEnv := fun _ => { allOk with unmountOk := false }

/-- Fifty distinct cache keys whose oldest (first-inserted) is the empty
string. -/
def cacheKeys50 : List String :=
  "" :: (List.range 49).map (fun i => "k" ++ toString i)

/-- A cache state holding exactly `cacheMaxSize` entries, built by 50 `set`
calls, whose least-recently-inserted key is `""`. -/
def cacheC50 : List (String × CacheEntry Nat) :=
  cacheKeys50.foldl (fun c k => cacheSet 0 c k 0 none) []

/-- The federation state after one successful first `loadMfe` of module `A`
(with stylesheet) from the initial state. -/
def fedAfterLoad (A : String) : FedState :=
  { loadedMfes := [A], mountedMfes := [A], loadedStylesheets := [A],
    styleElems := [A],
    log := [FedEvent.styleAdd A, FedEvent.bootstrapCall A, FedEvent.mountCall A] }

/-- Fifty distinct nonempty cache keys. -/
def cacheKeys50b : List String :=
  (List.range 50).map (fun i => "k" ++ toString i)

/-- A cache state holding exactly `cacheMaxSize` entries with nonempty keys,
oldest first key `"k0"`. -/
def cacheC50b : List (String × CacheEntry Nat) :=
  cacheKeys50b.foldl (fun c k => cacheSet 0 c k 0 none) []

/-! ## Helper lemmas -/

theorem mapGet_set_self {β : Type} (m : List (String × β)) (k : String) (v : β) :
    mapGet (mapSet m k v) k = some v := by
  induction m with
  | nil => simp [mapSet, mapGet]
  | cons p rest ih =>
      by_cases h : p.1 = k
      · simp [mapSet, h, mapGet]
      · simp [mapSet, h, mapGet, ih]

theorem mapGet_set_ne {β : Type} (m : List (String × β)) (k k' : String) (v : β)
    (h : k' ≠ k) : mapGet (mapSet m k v) k' = mapGet m k' := by
  induction m with
  | nil => simp [mapSet, mapGet, Ne.symm h]
  | cons p rest ih =>
      by_cases hp : p.1 = k
      · simp [mapSet, hp, mapGet, Ne.symm h, hp ▸ (Ne.symm h)]
      · by_cases hp' : p.1 = k'
        · simp [mapSet, hp, mapGet, hp', h]
        · simp [mapSet, hp, mapGet, hp', ih]

theorem mapKeys_set {β : Type} (m : List (String × β)) (k : String) (v : β) :
    mapKeys (mapSet m k v) =
      if (mapGet m k).isSome then mapKeys m else mapKeys m ++ [k] := by
  induction m with
  | nil => simp [mapSet, mapGet, mapKeys]
  | cons p rest ih =>
      by_cases h : p.1 = k
      · simp [mapSet, h, mapGet, mapKeys]
      · simp only [mapSet, h, if_false, mapGet, mapKeys, List.map_cons]
        simp only [mapKeys] at ih
        rw [ih]
        by_cases hs : (mapGet rest k).isSome <;> simp [hs]

theorem mapGet_delete_self {β : Type} (m : List (String × β)) (k : String)
    (hwf : MapWF m) : mapGet (mapDelete m k) k = none := by
  induction m with
  | nil => simp [mapDelete, mapGet]
  | cons p rest ih =>
      simp only [MapWF, mapKeys, List.map_cons, List.nodup_cons] at hwf
      by_cases h : p.1 = k
      · have : ∀ q ∈ rest, q.1 ≠ k := by
          intro q hq hqk
          exact hwf.1 (h ▸ hqk ▸ List.mem_map_of_mem (·.1) hq)
        simp only [mapDelete, h, if_true]
        clear ih hwf
        induction rest with
        | nil => simp [mapGet]
        | cons q rest2 ih2 =>
            have hq := this q (by simp)
            simp only [mapGet, hq, if_false]
            exact ih2 (fun r hr => this r (by simp [hr]))
      · simp only [mapDelete, h, if_false, mapGet, h, if_false]
        exact ih hwf.2

theorem mapGet_delete_ne {β : Type} (m : List (String × β)) (k k' : String)
    (h : k' ≠ k) : mapGet (mapDelete m k) k' = mapGet m k' := by
  induction m with
  | nil => simp [mapDelete, mapGet]
  | cons p rest ih =>
      by_cases hp : p.1 = k
      · simp [mapDelete, hp, mapGet, Ne.symm h]
      · by_cases hp' : p.1 = k'
        · simp [mapDelete, hp, mapGet, hp', h]
        · simp [mapDelete, hp, mapGet, hp', ih]

theorem mapWF_set {β : Type} (m : List (String × β)) (k : String) (v : β)
    (hwf : MapWF m) : MapWF (mapSet m k v) := by
  unfold MapWF
  rw [mapKeys_set]
  by_cases hs : (mapGet m k).isSome
  · simpa [hs] using hwf
  · rw [if_neg hs]
    rw [List.nodup_append]
    refine ⟨hwf, List.nodup_singleton k, ?_⟩
    intro a ha hb
    simp only [List.mem_singleton] at hb
    subst hb
    -- a key present in the map has a `some` lookup, contradicting hs
    have : (mapGet m a).isSome := by
      clear hwf hs
      induction m with
      | nil => simp [mapKeys] at ha
      | cons p rest ih =>
          simp only [mapKeys, List.map_cons, List.mem_cons] at ha
          by_cases hp : p.1 = a
          · simp [mapGet, hp]
          · simp only [mapGet, hp, if_false]
            exact ih (ha.resolve_left (fun h => hp h.symm))
    exact hs this

theorem mapKeys_delete_sublist {β : Type} (m : List (String × β)) (k : String) :
    (mapKeys (mapDelete m k)).Sublist (mapKeys m) := by
  induction m with
  | nil => simp [mapDelete, mapKeys]
  | cons p rest ih =>
      by_cases h : p.1 = k
      · simp only [mapDelete, h, if_true, mapKeys, List.map_cons]
        exact (List.sublist_cons_self _ _)
      · simp only [mapDelete, h, if_false, mapKeys, List.map_cons]
        exact List.Sublist.cons₂ _ ih

theorem mapWF_delete {β : Type} (m : List (String × β)) (k : String)
    (hwf : MapWF m) : MapWF (mapDelete m k) :=
  List.Nodup.sublist (mapKeys_delete_sublist m k) hwf

theorem emitLoop_spec (beh : Nat → Bool) (l : List Nat) :
    emitLoop beh l = (l, .ok ()) := by
  induction l with
  | nil => rfl
  | cons h rest ih =>
      unfold emitLoop invokeHandler
      by_cases hb : beh h <;> simp [hb, ih]

theorem mapSet_set_same {β : Type} (m : List (String × β)) (k : String) (v v' : β) :
    mapSet (mapSet m k v) k v' = mapSet m k v' := by
  induction m with
  | nil => simp [mapSet]
  | cons p rest ih =>
      by_cases h : p.1 = k
      · simp [mapSet, h]
      · simp [mapSet, h, ih]

theorem setAdd_nodup (l : List Nat) (h : Nat) (hd : l.Nodup) :
    (setAdd l h).Nodup := by
  unfold setAdd
  by_cases hm : h ∈ l
  · simpa [hm]
  · simp [hm, List.nodup_append, hd]

theorem setAdd_count_self (l : List Nat) (h : Nat) (hd : l.Nodup) :
    (setAdd l h).count h = 1 := by
  unfold setAdd
  by_cases hm : h ∈ l
  · simpa [hm] using List.count_eq_one_of_mem hd hm
  · simp [hm, List.count_eq_zero_of_not_mem hm]

theorem mapWF_cacheSet {α : Type} (now : Int) (c : List (String × CacheEntry α))
    (key : String) (v : α) (opts : Option CacheOptions) (hwf : MapWF c) :
    MapWF (cacheSet now c key v opts) := by
  unfold cacheSet
  apply mapWF_set
  by_cases hcond : cacheMaxSize ≤ c.length ∧ ¬(mapGet c key).isSome
  · rw [if_pos hcond]
    cases hfk : cacheFirstKey c with
    | none => exact hwf
    | some fk =>
        by_cases hfke : fk = ""
        · simp [hfke, hwf]
        · simp only [ne_eq, hfke, not_false_eq_true, if_true]
          exact mapWF_delete c fk hwf
  · rw [if_neg hcond]; exact hwf

theorem length_mapSet {β : Type} (m : List (String × β)) (k : String) (v : β) :
    (mapSet m k v).length =
      if (mapGet m k).isSome then m.length else m.length + 1 := by
  induction m with
  | nil => simp [mapSet, mapGet]
  | cons p rest ih =>
      by_cases h : p.1 = k
      · simp [mapSet, h, mapGet]
      · simp only [mapSet, h, if_false, mapGet, List.length_cons, ih]
        by_cases hs : (mapGet rest k).isSome <;> simp [hs]

theorem cacheGet_of_get_none {α : Type} (t : Int) (c : List (String × CacheEntry α))
    (key : String) (h : mapGet c key = none) : cacheGet t c key = (c, none) := by
  unfold cacheGet
  rw [h]

theorem cacheGet_of_get_some {α : Type} (t : Int) (c : List (String × CacheEntry α))
    (key : String) (e : CacheEntry α) (h : mapGet c key = some e) :
    cacheGet t c key =
      if entryExpired t e then (mapDelete c key, none) else (c, some e.value) := by
  unfold cacheGet
  rw [h]

theorem unsubscribe_eq_of_get (bus : EventBus) (e : String) (h : Nat)
    (hs : List Nat) (hget : mapGet bus.handlers e = some hs) :
    bus.unsubscribe e h = EventBus.mk (mapSet bus.handlers e (hs.erase h)) := by
  unfold EventBus.unsubscribe
  rw [hget]

theorem loadMfeStyles_facts (env : String → MfeEnv) (s : FedState) (id : String) :
    (loadMfeStyles env s id).loadedMfes = s.loadedMfes ∧
    (loadMfeStyles env s id).mountedMfes = s.mountedMfes ∧
    ∀ x, ((loadMfeStyles env s id).log.count (FedEvent.bootstrapCall x))
      = s.log.count (FedEvent.bootstrapCall x) := by
  unfold loadMfeStyles
  by_cases h1 : id ∈ s.loadedStylesheets <;>
    by_cases h2 : (env id).cssExists = true <;>
    simp [h1, h2, List.count_append]

theorem unloadMfe_facts (env : String → MfeEnv) (s : FedState) (id : String) :
    (unloadMfe env s id).1.loadedMfes = s.loadedMfes ∧
    ∀ x, ((unloadMfe env s id).1.log.count (FedEvent.bootstrapCall x))
      = s.log.count (FedEvent.bootstrapCall x) := by
  unfold unloadMfe
  by_cases h1 : id ∈ s.loadedMfes ∧ id ∈ s.mountedMfes <;>
    by_cases h2 : (env id).unmountOk = true <;>
    by_cases h3 : id ∈ s.loadedStylesheets <;>
    by_cases h4 : id ∈ s.styleElems <;>
    simp [h1, h2, h3, h4, List.count_append]

/-- A `loadMfe` call that finds a cached lifecycle handle leaves `loadedMfes`
unchanged and performs no bootstrap invocation. -/
theorem loadMfe_cached (env : String → MfeEnv) (s : FedState) (id : String)
    (hmem : id ∈ s.loadedMfes) :
    (loadMfe env s id).1.loadedMfes = s.loadedMfes ∧
    ∀ x, ((loadMfe env s id).1.log.count (FedEvent.bootstrapCall x))
      = s.log.count (FedEvent.bootstrapCall x) := by
  obtain ⟨hl, _, hc⟩ := loadMfeStyles_facts env s id
  unfold loadMfe
  rw [if_pos (hl ▸ hmem)]
  by_cases hmo : (env id).mountOk = true <;>
    simp only [hmo, Bool.true_eq_false, if_true, if_false] <;>
    exact ⟨hl, fun x => by simp [List.count_append, hc x]⟩

/-- A first-time `loadMfe` call with a succeeding import and bootstrap caches
the lifecycle handle and performs exactly one bootstrap invocation. -/
theorem loadMfe_first (env : String → MfeEnv) (s : FedState) (id : String)
    (hnot : id ∉ s.loadedMfes) (hi : (env id).importOk = true)
    (hb : (env id).bootstrapOk = true) :
    id ∈ (loadMfe env s id).1.loadedMfes ∧
    (loadMfe env s id).1.log.count (FedEvent.bootstrapCall id)
      = s.log.count (FedEvent.bootstrapCall id) + 1 := by
  obtain ⟨hl, _, hc⟩ := loadMfeStyles_facts env s id
  unfold loadMfe
  rw [if_neg (by rw [hl]; exact hnot), if_neg (by simp [hi]), if_neg (by simp [hb])]
  have hmem : id ∈ strSetAdd (loadMfeStyles env s id).loadedMfes id := by
    unfold strSetAdd
    split_ifs with hin
    · exact hin
    · simp
  by_cases hmo : (env id).mountOk = true <;>
    simp only [hmo, Bool.true_eq_false, if_true, if_false] <;>
    exact ⟨by simpa using hmem, by simp [List.count_append, hc id]⟩

/-! ## Claims -/

/-- C8: `emit(event, payload)` synchronously invokes exactly the handlers
currently registered for the event, in registration order — all of them,
even when some throw, since each invocation is wrapped in its own
`try`/`catch` — and the `emit` call itself always completes normally: no
handler exception reaches the emitter. -/
theorem claim_C8_emit_fanout (bus : EventBus) (beh : Nat → Bool) (event : String) :
    (bus.emit beh event).1 = (mapGet bus.handlers event).getD [] ∧
    (bus.emit beh event).2 = Except.ok () := by
  unfold EventBus.emit
  cases h : mapGet bus.handlers event with
  | none => simp
  | some hs => simp [emitLoop_spec]

/-- C10: handlers live in a per-event `Set` keyed by function identity, so
registering the same handler twice for one event creates no additional
registration (the second `on` is the identity); a single `emit` then invokes
the handler exactly once; the returned unsubscribe closure removes the
handler entirely; unsubscribing twice equals unsubscribing once; and
unsubscribing for an event name with no handler set returns normally leaving
the bus unchanged. -/
theorem claim_C10_set_semantics (bus : EventBus) (e : String) (h : Nat)
    (beh : Nat → Bool) (hd : ((mapGet bus.handlers e).getD []).Nodup) :
    (bus.on e h).on e h = bus.on e h ∧
    ((bus.on e h).emit beh e).1.count h = 1 ∧
    h ∉ (mapGet ((bus.on e h).unsubscribe e h).handlers e).getD [] ∧
    ((bus.on e h).unsubscribe e h).unsubscribe e h = (bus.on e h).unsubscribe e h ∧
    (mapGet bus.handlers e = none → bus.unsubscribe e h = bus) := by
  have hget1 : mapGet (bus.on e h).handlers e
      = some (setAdd ((mapGet bus.handlers e).getD []) h) := by
    show mapGet (mapSet bus.handlers e _) e = _
    exact mapGet_set_self _ _ _
  have hmem : h ∈ setAdd ((mapGet bus.handlers e).getD []) h := by
    unfold setAdd
    by_cases hm : h ∈ (mapGet bus.handlers e).getD []
    · rw [if_pos hm]; exact hm
    · rw [if_neg hm]; simp
  have hnd1 : (setAdd ((mapGet bus.handlers e).getD []) h).Nodup := setAdd_nodup _ h hd
  have hunsub : (bus.on e h).unsubscribe e h =
      EventBus.mk (mapSet (bus.on e h).handlers e
        ((setAdd ((mapGet bus.handlers e).getD []) h).erase h)) :=
    unsubscribe_eq_of_get _ _ _ _ hget1
  have hget2 : mapGet ((bus.on e h).unsubscribe e h).handlers e
      = some ((setAdd ((mapGet bus.handlers e).getD []) h).erase h) := by
    rw [hunsub]
    exact mapGet_set_self _ _ _
  refine ⟨?_, ?_, ?_, ?_, ?_⟩
  · -- second `on` is the identity
    show EventBus.mk _ = EventBus.mk _
    rw [hget1]
    have hcollapse : setAdd ((some (setAdd ((mapGet bus.handlers e).getD []) h)).getD []) h
        = setAdd ((mapGet bus.handlers e).getD []) h := by
      simp only [Option.getD_some]
      rw [setAdd, if_pos hmem]
    rw [hcollapse]
    show EventBus.mk (mapSet (mapSet bus.handlers e _) e _) = _
    rw [mapSet_set_same]
  · show (EventBus.emit _ beh e).1.count h = 1
    unfold EventBus.emit
    rw [hget1]
    show ((emitLoop beh (setAdd ((mapGet bus.handlers e).getD []) h)).1).count h = 1
    rw [emitLoop_spec]
    exact setAdd_count_self _ h hd
  · rw [hget2]
    simp only [Option.getD_some]
    exact hnd1.not_mem_erase
  · -- idempotence of the unsubscribe closure
    rw [unsubscribe_eq_of_get _ _ _ _ hget2]
    rw [List.erase_of_not_mem hnd1.not_mem_erase]
    rw [hunsub]
    show EventBus.mk (mapSet (mapSet _ e _) e _) = _
    rw [mapSet_set_same]
  · intro hnone
    unfold EventBus.unsubscribe
    rw [hnone]

/-- C10 witness: instantiated at the empty bus, event `"x"`, handler `1`. -/
theorem claim_C10_set_semantics_witness :
    (emptyBus.on "x" 1).on "x" 1 = emptyBus.on "x" 1 ∧
    ((emptyBus.on "x" 1).emit (fun _ => true) "x").1.count 1 = 1 ∧
    1 ∉ (mapGet ((emptyBus.on "x" 1).unsubscribe "x" 1).handlers "x").getD [] :=
  have happ := claim_C10_set_semantics emptyBus "x" 1 (fun _ => true) (by decide)
  ⟨happ.1, happ.2.1, happ.2.2.1⟩

/-- C6: for `T > 0`, immediately after `set(k, v, {ttl: T})` at time `t0`,
`get(k)` returns `v`; at any time `t1` past the stored expiry `t0 + T`,
`get(k)` returns absent and deletes the entry; and every subsequent `get(k)`
with no intervening `set`, at any time, still returns absent and leaves the
cache unchanged — an expired entry is never resurrected. -/
theorem claim_C6_cache_ttl {α : Type} (c : List (String × CacheEntry α))
    (k : String) (v : α) (T t0 t1 : Int) (hwf : MapWF c)
    (hT : 0 < T) (ht0 : 0 ≤ t0) (ht1 : t0 + T < t1) :
    (cacheGet t0 (cacheSet t0 c k v (some { ttl := some T })) k).2 = some v ∧
    (cacheGet t1 (cacheSet t0 c k v (some { ttl := some T })) k).2 = none ∧
    mapGet (cacheGet t1 (cacheSet t0 c k v (some { ttl := some T })) k).1 k = none ∧
    ∀ t2, cacheGet t2 (cacheGet t1 (cacheSet t0 c k v (some { ttl := some T })) k).1 k =
      ((cacheGet t1 (cacheSet t0 c k v (some { ttl := some T })) k).1, none) := by
  have hentry : mapGet (cacheSet t0 c k v (some { ttl := some T })) k
      = some { value := v, expiresAt := some (t0 + T), version := none } := by
    unfold cacheSet
    simp only [Option.some_bind, Option.getD_some]
    rw [if_pos hT]
    exact mapGet_set_self _ _ _
  have hexp0 : entryExpired t0
      ({ value := v, expiresAt := some (t0 + T), version := none } : CacheEntry α) = false := by
    unfold entryExpired
    simp only [Bool.and_eq_false_iff, decide_eq_false_iff_not, not_lt]
    right
    omega
  have hexp1 : entryExpired t1
      ({ value := v, expiresAt := some (t0 + T), version := none } : CacheEntry α) = true := by
    unfold entryExpired
    simp only [Bool.and_eq_true, decide_eq_true_iff]
    constructor <;> omega
  have hwf1 : MapWF (cacheSet t0 c k v (some { ttl := some T })) :=
    mapWF_cacheSet _ _ _ _ _ hwf
  have hdel : (cacheGet t1 (cacheSet t0 c k v (some { ttl := some T })) k).1
      = mapDelete (cacheSet t0 c k v (some { ttl := some T })) k := by
    rw [cacheGet_of_get_some t1 _ k _ hentry]
    simp only [hexp1, if_true]
  have hgone : mapGet (cacheGet t1 (cacheSet t0 c k v (some { ttl := some T })) k).1 k
      = none := by
    rw [hdel]
    exact mapGet_delete_self _ _ hwf1
  refine ⟨?_, ?_, hgone, ?_⟩
  · rw [cacheGet_of_get_some t0 _ k _ hentry]
    simp [hexp0]
  · rw [cacheGet_of_get_some t1 _ k _ hentry]
    simp [hexp1]
  · intro t2
    exact cacheGet_of_get_none t2 _ k hgone

/-- C6 witness: empty cache, key `"k"`, value `7`, ttl `3`, set at time `0`,
expired read at time `5`, subsequent read at time `9`. -/
theorem claim_C6_cache_ttl_witness :
    (cacheGet 0 (cacheSet 0 ([] : List (String × CacheEntry Nat)) "k" 7
        (some { ttl := some 3 })) "k").2 = some 7 ∧
    (cacheGet 5 (cacheSet 0 ([] : List (String × CacheEntry Nat)) "k" 7
        (some { ttl := some 3 })) "k").2 = none ∧
    mapGet (cacheGet 5 (cacheSet 0 ([] : List (String × CacheEntry Nat)) "k" 7
        (some { ttl := some 3 })) "k").1 "k" = none ∧
    cacheGet 9 (cacheGet 5 (cacheSet 0 ([] : List (String × CacheEntry Nat)) "k" 7
        (some { ttl := some 3 })) "k").1 "k" =
      ((cacheGet 5 (cacheSet 0 ([] : List (String × CacheEntry Nat)) "k" 7
        (some { ttl := some 3 })) "k").1, none) :=
  have happ := claim_C6_cache_ttl ([] : List (String × CacheEntry Nat)) "k" 7 3 0 5
    (by decide) (by decide) (by decide) (by decide)
  ⟨happ.1, happ.2.1, happ.2.2.1, happ.2.2.2 9⟩

/-- C7 counterexample: `cacheC50` holds exactly 50 entries (capacity) and its
least-recently-inserted key is `""`; calling `set` with the fresh 51st key
`"new"` evicts nothing — the truthiness guard `if (firstKey)` is falsy for an
empty-string first key, skipping the delete — so the cache grows to 51
entries and every old key survives, refuting "exactly one entry … is evicted
before the new entry is stored". -/
theorem claim_C7_counterexample :
    cacheC50.length = 50 ∧
    cacheFirstKey cacheC50 = some "" ∧
    mapGet cacheC50 "new" = none ∧
    (cacheSet 0 cacheC50 "new" 0 none).length = 51 ∧
    mapKeys (cacheSet 0 cacheC50 "new" 0 none) = mapKeys cacheC50 ++ ["new"] := by
  decide

/-- C7 amended: with the cache at capacity (50 entries) and a fresh key,
`set` evicts exactly the least-recently-inserted entry provided its key is
nonempty (the `if (firstKey)` truthiness guard skips eviction when the
oldest key is the empty string, letting the cache grow to 51): the surviving
keys keep their insertion order and the new key is appended, the size staying
at capacity.  `set` with an already-present key evicts nothing and overwrites
that entry in place, keeping every key and its position. -/
theorem claim_C7_amended {α : Type} (c : List (String × CacheEntry α))
    (k : String) (v : α) (now : Int) (opts : Option CacheOptions) :
    (∀ fk, c.length = cacheMaxSize → mapGet c k = none →
      cacheFirstKey c = some fk → fk ≠ "" →
      mapKeys (cacheSet now c k v opts) = (mapKeys c).tail ++ [k] ∧
      (cacheSet now c k v opts).length = cacheMaxSize) ∧
    ((mapGet c k).isSome →
      mapKeys (cacheSet now c k v opts) = mapKeys c ∧
      (mapGet (cacheSet now c k v opts) k).map (·.value) = some v) := by
  constructor
  · intro fk hlen hnone hfk hfke
    cases c with
    | nil => simp [cacheMaxSize] at hlen
    | cons p rest =>
        have hpfk : p.1 = fk := by
          simpa [cacheFirstKey] using hfk
        have hpk : p.1 ≠ k := by
          intro hpk
          rw [show mapGet (p :: rest) k = some p.2 by simp [mapGet, hpk]] at hnone
          exact Option.noConfusion hnone
        have hrestnone : mapGet rest k = none := by
          simpa [mapGet, hpk] using hnone
        have hcond : cacheMaxSize ≤ (p :: rest).length ∧
            ¬(mapGet (p :: rest) k).isSome = true := by
          refine ⟨le_of_eq hlen.symm, ?_⟩
          simp [hnone]
        unfold cacheSet
        rw [if_pos hcond]
        have hfirst : cacheFirstKey (p :: rest) = some p.1 := rfl
        rw [hfirst, hpfk]
        simp only []
        rw [if_pos hfke]
        have hdel : mapDelete (p :: rest) fk = rest := by
          simp [mapDelete, hpfk]
        rw [hdel]
        have hlen' : rest.length + 1 = cacheMaxSize := by simpa using hlen
        constructor
        · rw [mapKeys_set, if_neg (by simp [hrestnone])]
          simp [mapKeys]
        · rw [length_mapSet, if_neg (by simp [hrestnone])]
          exact hlen'
  · intro hsome
    have hcond : ¬(cacheMaxSize ≤ c.length ∧ ¬(mapGet c k).isSome = true) := by
      intro hc
      exact hc.2 hsome
    unfold cacheSet
    rw [if_neg hcond, mapKeys_set, if_pos hsome]
    exact ⟨rfl, by rw [mapGet_set_self]; rfl⟩

/-- C7 witness: the amended claim instantiated on a concrete 50-entry cache
with nonempty keys (fresh key `"new"` evicting `"k0"`; existing key `"k3"`
overwritten in place). -/
theorem claim_C7_amended_witness :
    (mapKeys (cacheSet 0 cacheC50b "new" 0 none) = (mapKeys cacheC50b).tail ++ ["new"] ∧
      (cacheSet 0 cacheC50b "new" 0 none).length = cacheMaxSize) ∧
    mapKeys (cacheSet 0 cacheC50b "k3" 9 none) = mapKeys cacheC50b ∧
    (mapGet (cacheSet 0 cacheC50b "k3" 9 none) "k3").map (·.value) = some 9 :=
  have h1 := (claim_C7_amended cacheC50b "new" 0 0 none).1 "k0"
    (by decide) (by decide) (by decide) (by decide)
  have h2 := (claim_C7_amended cacheC50b "k3" 9 0 none).2 (by decide)
  ⟨h1, h2.1, h2.2⟩

/-- Once a module's lifecycle handle is cached, any number of further
activate→deactivate cycles preserve the handle and perform no further
bootstrap invocation. -/
theorem mfeCycles_no_bootstrap (env : String → MfeEnv) (id : String) (n : Nat) :
    ∀ s : FedState, id ∈ s.loadedMfes →
      id ∈ (mfeCycles env id s n).loadedMfes ∧
      (mfeCycles env id s n).log.count (FedEvent.bootstrapCall id)
        = s.log.count (FedEvent.bootstrapCall id) := by
  induction n with
  | zero => exact fun s hs => ⟨hs, rfl⟩
  | succ m ih =>
      intro s hs
      obtain ⟨hload, hloadc⟩ := loadMfe_cached env s id hs
      obtain ⟨hunl, hunlc⟩ := unloadMfe_facts env (loadMfe env s id).1 id
      have hmem2 : id ∈ (mfeCycle env id s).loadedMfes := by
        unfold mfeCycle
        rw [hunl, hload]
        exact hs
      have hcount2 : (mfeCycle env id s).log.count (FedEvent.bootstrapCall id)
          = s.log.count (FedEvent.bootstrapCall id) := by
        unfold mfeCycle
        rw [hunlc id, hloadc id]
      obtain ⟨ha, hb⟩ := ih (mfeCycle env id s) hmem2
      exact ⟨ha, by rw [show mfeCycles env id s (m + 1) = mfeCycles env id (mfeCycle env id s) m
        from rfl, hb, hcount2]⟩

/-- C1: for a module never before activated, across `n ≥ 2` consecutive
activate/deactivate cycles (`loadMfe`/`unloadMfe`) in one process lifetime,
the one-time initializer `bootstrap` is invoked exactly once — already on the
first successful load — no matter how often the module is re-mounted and
unmounted afterwards. -/
theorem claim_C1_bootstrap_once (env : String → MfeEnv) (id : String) (n : Nat)
    (h2 : 2 ≤ n) (hi : (env id).importOk = true) (hb : (env id).bootstrapOk = true) :
    (mfeCycles env id initFed n).log.count (FedEvent.bootstrapCall id) = 1 ∧
    (loadMfe env initFed id).1.log.count (FedEvent.bootstrapCall id) = 1 := by
  have hnot : id ∉ initFed.loadedMfes := by simp [initFed]
  obtain ⟨hmem1, hcount1⟩ := loadMfe_first env initFed id hnot hi hb
  have hinit0 : initFed.log.count (FedEvent.bootstrapCall id) = 0 := rfl
  rw [hinit0] at hcount1
  obtain ⟨hunl, hunlc⟩ := unloadMfe_facts env (loadMfe env initFed id).1 id
  have hmemc : id ∈ (mfeCycle env id initFed).loadedMfes := by
    unfold mfeCycle
    rw [hunl]
    exact hmem1
  have hcountc : (mfeCycle env id initFed).log.count (FedEvent.bootstrapCall id) = 1 := by
    unfold mfeCycle
    rw [hunlc id, hcount1]
  obtain ⟨m, rfl⟩ : ∃ m, n = m + 1 := ⟨n - 1, by omega⟩
  obtain ⟨_, hkeep⟩ := mfeCycles_no_bootstrap env id m (mfeCycle env id initFed) hmemc
  refine ⟨?_, by rw [hcount1]⟩
  rw [show mfeCycles env id initFed (m + 1)
    = mfeCycles env id (mfeCycle env id initFed) m from rfl, hkeep, hcountc]

/-- C1 witness: module `"m"` in the all-succeeding environment, two cycles. -/
theorem claim_C1_bootstrap_once_witness :
    (mfeCycles envAllOk "m" initFed 2).log.count (FedEvent.bootstrapCall "m") = 1 ∧
    (loadMfe envAllOk initFed "m").1.log.count (FedEvent.bootstrapCall "m") = 1 :=
  claim_C1_bootstrap_once envAllOk "m" 2 (by decide) (by decide) (by decide)

/-- C2 counterexample: for a first-time load whose dynamic import succeeds
but whose `bootstrap` throws, the error propagates to the caller **and yet**
the lifecycle handle stays cached in `loadedMfes` (the source stores the
handle before awaiting `bootstrap` and the `catch` block does not roll it
back), refuting "the loader retains no lifecycle handle for m". -/
theorem claim_C2_counterexample :
    (loadMfe envBootstrapFail initFed "m").2 = false ∧
    "m" ∈ (loadMfe envBootstrapFail initFed "m").1.loadedMfes ∧
    (loadMfe envBootstrapFail (loadMfe envBootstrapFail initFed "m").1 "m").2 = true ∧
    (loadMfe envBootstrapFail (loadMfe envBootstrapFail initFed "m").1 "m").1.log.count
      (FedEvent.bootstrapCall "m") = 1 := by
  decide

/-- C2 amended: on a first-time `loadMfe` for module `id`, a failed
dynamic-import propagates the error and retains no lifecycle handle (so a
retry re-attempts the full load including the initializer); but when the
dynamic load succeeds and `bootstrap` throws, the error propagates while the
handle is retained, so a retry performs no further bootstrap invocation and
goes straight to mount. -/
theorem claim_C2_amended (env : String → MfeEnv) (s : FedState) (id : String)
    (hnot : id ∉ s.loadedMfes) :
    ((env id).importOk = false →
      (loadMfe env s id).2 = false ∧
      id ∉ (loadMfe env s id).1.loadedMfes ∧
      (loadMfe env s id).1.log.count (FedEvent.bootstrapCall id)
        = s.log.count (FedEvent.bootstrapCall id)) ∧
    ((env id).importOk = true → (env id).bootstrapOk = false →
      (loadMfe env s id).2 = false ∧
      id ∈ (loadMfe env s id).1.loadedMfes ∧
      (loadMfe env (loadMfe env s id).1 id).1.log.count (FedEvent.bootstrapCall id)
        = s.log.count (FedEvent.bootstrapCall id) + 1) := by
  obtain ⟨hl, _, hc⟩ := loadMfeStyles_facts env s id
  constructor
  · intro hif
    unfold loadMfe
    rw [if_neg (by rw [hl]; exact hnot), if_pos (by simp [hif])]
    exact ⟨rfl, by rw [hl]; exact hnot, hc id⟩
  · intro hit hbf
    have hfirst : loadMfe env s id =
        ({ loadMfeStyles env s id with
            loadedMfes := strSetAdd (loadMfeStyles env s id).loadedMfes id
            log := (loadMfeStyles env s id).log ++ [FedEvent.bootstrapCall id] }, false) := by
      unfold loadMfe
      rw [if_neg (by rw [hl]; exact hnot), if_neg (by simp [hit]), if_pos (by simp [hbf])]
    have hmem : id ∈ (loadMfe env s id).1.loadedMfes := by
      rw [hfirst]
      unfold strSetAdd
      split_ifs with hin
      · exact hin
      · simp
    have hcount1 : (loadMfe env s id).1.log.count (FedEvent.bootstrapCall id)
        = s.log.count (FedEvent.bootstrapCall id) + 1 := by
      rw [hfirst]
      simp [List.count_append, hc id]
    obtain ⟨_, hc2⟩ := loadMfe_cached env (loadMfe env s id).1 id hmem
    refine ⟨by rw [hfirst], hmem, ?_⟩
    rw [hc2 id, hcount1]

/-- C2 amended witness: fresh module `"m"`, import succeeding, bootstrap
throwing (and separately an environment whose import fails). -/
theorem claim_C2_amended_witness :
    ((loadMfe envBootstrapFail initFed "m").2 = false ∧
      "m" ∈ (loadMfe envBootstrapFail initFed "m").1.loadedMfes ∧
      (loadMfe envBootstrapFail (loadMfe envBootstrapFail initFed "m").1 "m").1.log.count
        (FedEvent.bootstrapCall "m") = initFed.log.count (FedEvent.bootstrapCall "m") + 1) :=
  (claim_C2_amended envBootstrapFail initFed "m" (by decide)).2 (by decide) (by decide)

/-- C5: for an activate→deactivate→activate sequence on one module whose
stylesheet exists at a candidate URL, the stylesheet element is present
during both active periods and absent strictly between them: `loadMfe`
re-ensures the stylesheet on every call — also on the reactivation path,
where the lifecycle handle is already cached — and `unloadMfe` removes it. -/
theorem claim_C5_stylesheet_lifecycle (env : String → MfeEnv) (id : String)
    (hcss : (env id).cssExists = true) (hi : (env id).importOk = true)
    (hb : (env id).bootstrapOk = true) (hm : (env id).mountOk = true)
    (hu : (env id).unmountOk = true) :
    (loadMfe env initFed id).2 = true ∧
    id ∈ (loadMfe env initFed id).1.styleElems ∧
    id ∉ (unloadMfe env (loadMfe env initFed id).1 id).1.styleElems ∧
    id ∈ (unloadMfe env (loadMfe env initFed id).1 id).1.loadedMfes ∧
    (loadMfe env (unloadMfe env (loadMfe env initFed id).1 id).1 id).2 = true ∧
    id ∈ (loadMfe env (unloadMfe env (loadMfe env initFed id).1 id).1 id).1.styleElems := by
  have h1 : loadMfe env initFed id =
      ({ loadedMfes := [id], mountedMfes := [id], loadedStylesheets := [id],
         styleElems := [id],
         log := [FedEvent.styleAdd id, FedEvent.bootstrapCall id, FedEvent.mountCall id] },
       true) := by
    unfold loadMfe loadMfeStyles
    simp [initFed, strSetAdd, hcss, hi, hb, hm]
  have h2 : (unloadMfe env (loadMfe env initFed id).1 id).1 =
      { loadedMfes := [id], mountedMfes := [], loadedStylesheets := [],
        styleElems := [],
        log := [FedEvent.styleAdd id, FedEvent.bootstrapCall id, FedEvent.mountCall id,
          FedEvent.unmountCall id, FedEvent.styleRemove id] } := by
    rw [h1]
    unfold unloadMfe
    simp [hu]
  have h3 : loadMfe env (unloadMfe env (loadMfe env initFed id).1 id).1 id =
      ({ loadedMfes := [id], mountedMfes := [id], loadedStylesheets := [id],
         styleElems := [id],
         log := [FedEvent.styleAdd id, FedEvent.bootstrapCall id, FedEvent.mountCall id,
           FedEvent.unmountCall id, FedEvent.styleRemove id, FedEvent.styleAdd id,
           FedEvent.mountCall id] }, true) := by
    rw [h2]
    unfold loadMfe loadMfeStyles
    simp [strSetAdd, hcss, hm]
  rw [h3, h2, h1]
  simp

/-- C5 witness: module `"m"` in the all-succeeding environment. -/
theorem claim_C5_stylesheet_lifecycle_witness :
    (loadMfe envAllOk initFed "m").2 = true ∧
    "m" ∈ (loadMfe envAllOk initFed "m").1.styleElems ∧
    "m" ∉ (unloadMfe envAllOk (loadMfe envAllOk initFed "m").1 "m").1.styleElems ∧
    "m" ∈ (unloadMfe envAllOk (loadMfe envAllOk initFed "m").1 "m").1.loadedMfes ∧
    (loadMfe envAllOk (unloadMfe envAllOk (loadMfe envAllOk initFed "m").1 "m").1 "m").2
      = true ∧
    "m" ∈ (loadMfe envAllOk (unloadMfe envAllOk (loadMfe envAllOk initFed "m").1 "m").1
      "m").1.styleElems :=
  claim_C5_stylesheet_lifecycle envAllOk "m" (by decide) (by decide) (by decide)
    (by decide) (by decide)

/-- C4 counterexample: module `"m"` is loaded and mounted, its `unmount`
throws; `unloadMfe` completes normally and removes the stylesheet, but the
`mountedMfes` entry (MountRecord) for `"m"` is **not** deleted — the delete
sits after the `await unmount` inside the `try`, so the throw skips it —
refuting "the MountRecord for m is deleted … even in the case where the
module's unmount threw". -/
theorem claim_C4_counterexample :
    (unloadMfe envUnmountFail (loadMfe envUnmountFail initFed "m").1 "m").2 = true ∧
    "m" ∈ (unloadMfe envUnmountFail (loadMfe envUnmountFail initFed "m").1 "m").1.mountedMfes ∧
    "m" ∉ (unloadMfe envUnmountFail (loadMfe envUnmountFail initFed "m").1 "m").1.styleElems := by
  decide

/-- C4 amended: `unloadMfe(m)` never propagates an exception thrown by the
module's `unmount`; after it returns, `m`'s stylesheet element is removed and
its `loadedStylesheets` entry dropped even when `unmount` threw, and the
caller (`loadCurrentMfe`) unregisters `m`'s dynamic routes on every
deactivation; but the MountRecord is deleted only when `unmount` succeeds —
when `unmount` throws, the `mountedMfes` entry is retained. -/
theorem claim_C4_amended (env : String → MfeEnv) (s : FedState) (id : String)
    (hl : id ∈ s.loadedMfes) (hm : id ∈ s.mountedMfes)
    (hmn : s.mountedMfes.Nodup) (hln : s.loadedStylesheets.Nodup)
    (hsn : s.styleElems.Nodup)
    (hsub : ∀ x ∈ s.styleElems, x ∈ s.loadedStylesheets) :
    (unloadMfe env s id).2 = true ∧
    id ∉ (unloadMfe env s id).1.loadedStylesheets ∧
    id ∉ (unloadMfe env s id).1.styleElems ∧
    (id ∈ (unloadMfe env s id).1.mountedMfes ↔ (env id).unmountOk = false) ∧
    (∀ t : ShellState, t.routes.Nodup → t.isLoading = false →
      t.loadedMfeId = some id → id ∉ (loadCurrentMfeStart t).routes) := by
  have hroutes : ∀ t : ShellState, t.routes.Nodup → t.isLoading = false →
      t.loadedMfeId = some id → id ∉ (loadCurrentMfeStart t).routes := by
    intro t htn htl htid
    unfold loadCurrentMfeStart
    rw [if_neg (by rw [htl]; exact Bool.false_ne_true), htid]
    simp only []
    exact htn.not_mem_erase
  unfold unloadMfe
  rw [if_pos ⟨hl, hm⟩]
  by_cases hok : (env id).unmountOk = true <;>
    by_cases hsty : id ∈ s.loadedStylesheets
  · have hnotin : id ∉ s.mountedMfes.erase id := hmn.not_mem_erase
    by_cases hel : id ∈ s.styleElems <;>
      simp [hok, hsty, hel, hnotin, hln.not_mem_erase, hsn.not_mem_erase] <;>
      exact hroutes
  · have hnoel : id ∉ s.styleElems := fun hx => hsty (hsub id hx)
    have hnotin : id ∉ s.mountedMfes.erase id := hmn.not_mem_erase
    simp [hok, hsty, hnoel, hnotin]
    exact hroutes
  · by_cases hel : id ∈ s.styleElems <;>
      simp [hok, hsty, hel, hm, hln.not_mem_erase, hsn.not_mem_erase] <;>
      exact hroutes
  · have hnoel : id ∉ s.styleElems := fun hx => hsty (hsub id hx)
    simp [hok, hsty, hnoel, hm]
    exact hroutes

/-- C4 amended witness: module `"m"` loaded and mounted in the environment
whose `unmount` throws, plus a concrete shell state for the caller part. -/
theorem claim_C4_amended_witness :
    (unloadMfe envUnmountFail (loadMfe envUnmountFail initFed "m").1 "m").2 = true ∧
    "m" ∉ (unloadMfe envUnmountFail (loadMfe envUnmountFail initFed "m").1 "m").1.loadedStylesheets ∧
    ("m" ∈ (unloadMfe envUnmountFail (loadMfe envUnmountFail initFed "m").1 "m").1.mountedMfes ↔
      (envUnmountFail "m").unmountOk = false) ∧
    "m" ∉ (loadCurrentMfeStart
      { mfeProp := "x", loadedMfeId := some "m", isLoading := false, isMounted := true,
        routes := ["m"], fed := initFed, pending := none }).routes :=
  have happ := claim_C4_amended envUnmountFail (loadMfe envUnmountFail initFed "m").1 "m"
    (by decide) (by decide) (by decide) (by decide) (by decide) (by decide)
  ⟨happ.1, happ.2.1, happ.2.2.2.1,
    happ.2.2.2.2 _ (by decide) (by decide) (by decide)⟩

/-- C3 counterexample: from a fresh component whose router prop resolves to
`"a"`, the mount fires `loadCurrentMfe` for `"a"`; a second navigation to
`"b"` arrives while `"a"`'s load is still in flight (`isLoading = true`), so
the `$effect.pre` guard drops it, and nothing re-runs the effect when the
guard later clears.  At settle time the single active module is `"a"` — the
**first** target — while the prop (most recent target) is `"b"`, refuting
"it is the second (most recent) target". -/
theorem claim_C3_counterexample :
    settled (runShell envAllOk (initShell "a")
      [ShellEvent.mountShell, ShellEvent.navigate "b", ShellEvent.resume]) ∧
    (runShell envAllOk (initShell "a")
      [ShellEvent.mountShell, ShellEvent.navigate "b", ShellEvent.resume]).fed.mountedMfes
      = ["a"] ∧
    (runShell envAllOk (initShell "a")
      [ShellEvent.mountShell, ShellEvent.navigate "b", ShellEvent.resume]).mfeProp = "b" := by
  decide

/-- C3 amended: when the second navigation event (to a different module `B`)
fires after `loadCurrentMfe` for `A` has started and before its load
resolves, the in-flight `isLoading` guard drops the second event and it is
never retried; at settle time exactly one module is mounted — the **first**
target `A` — and at no point of the trace are two modules mounted
simultaneously. -/
theorem claim_C3_amended (A B : String) (hA : A ≠ "") (hB : B ≠ "") (hAB : A ≠ B) :
    settled (runShell envAllOk (initShell A)
      [ShellEvent.mountShell, ShellEvent.navigate B, ShellEvent.resume]) ∧
    (runShell envAllOk (initShell A)
      [ShellEvent.mountShell, ShellEvent.navigate B, ShellEvent.resume]).fed.mountedMfes
      = [A] ∧
    (runShell envAllOk (initShell A)
      [ShellEvent.mountShell, ShellEvent.navigate B, ShellEvent.resume]).mfeProp = B ∧
    (runShell envAllOk (initShell A) []).fed.mountedMfes.length ≤ 1 ∧
    (runShell envAllOk (initShell A) [ShellEvent.mountShell]).fed.mountedMfes.length ≤ 1 ∧
    (runShell envAllOk (initShell A)
      [ShellEvent.mountShell, ShellEvent.navigate B]).fed.mountedMfes.length ≤ 1 ∧
    (runShell envAllOk (initShell A)
      [ShellEvent.mountShell, ShellEvent.navigate B, ShellEvent.resume]).fed.mountedMfes.length
      ≤ 1 := by
  have h1 : stepShell envAllOk (initShell A) ShellEvent.mountShell =
      { mfeProp := A, loadedMfeId := some A, isLoading := true, isMounted := true,
        routes := [], fed := initFed, pending := some (PendingAwait.loadWait A) } := rfl
  have h2 : stepShell envAllOk
      ({ mfeProp := A, loadedMfeId := some A, isLoading := true, isMounted := true,
         routes := [], fed := initFed,
         pending := some (PendingAwait.loadWait A) } : ShellState)
      (ShellEvent.navigate B) =
      { mfeProp := B, loadedMfeId := some A, isLoading := true, isMounted := true,
        routes := [], fed := initFed, pending := some (PendingAwait.loadWait A) } := by
    show stepNavigate _ B = _
    unfold stepNavigate
    rw [if_neg (by simp)]
  have hload : loadMfe envAllOk initFed A = (fedAfterLoad A, true) := rfl
  have h3 : stepShell envAllOk
      ({ mfeProp := B, loadedMfeId := some A, isLoading := true, isMounted := true,
         routes := [], fed := initFed,
         pending := some (PendingAwait.loadWait A) } : ShellState)
      ShellEvent.resume =
      { mfeProp := B, loadedMfeId := some A, isLoading := false, isMounted := true,
        routes := [], fed := fedAfterLoad A, pending := none } := by
    unfold stepShell stepResume
    simp only [hload]
    rfl
  have hrun : runShell envAllOk (initShell A)
      [ShellEvent.mountShell, ShellEvent.navigate B, ShellEvent.resume] =
      { mfeProp := B, loadedMfeId := some A, isLoading := false, isMounted := true,
        routes := [], fed := fedAfterLoad A, pending := none } := by
    show stepShell envAllOk (stepShell envAllOk (stepShell envAllOk (initShell A)
      ShellEvent.mountShell) (ShellEvent.navigate B)) ShellEvent.resume = _
    rw [h1, h2, h3]
  have hrun2 : runShell envAllOk (initShell A)
      [ShellEvent.mountShell, ShellEvent.navigate B] =
      { mfeProp := B, loadedMfeId := some A, isLoading := true, isMounted := true,
        routes := [], fed := initFed, pending := some (PendingAwait.loadWait A) } := by
    show stepShell envAllOk (stepShell envAllOk (initShell A)
      ShellEvent.mountShell) (ShellEvent.navigate B) = _
    rw [h1, h2]
  have hrun1 : runShell envAllOk (initShell A) [ShellEvent.mountShell] =
      { mfeProp := A, loadedMfeId := some A, isLoading := true, isMounted := true,
        routes := [], fed := initFed, pending := some (PendingAwait.loadWait A) } := h1
  rw [hrun, hrun1, hrun2]
  exact ⟨⟨rfl, rfl⟩, rfl, rfl, by simp [runShell, initShell, initFed], by simp [initFed],
    by simp [initFed], by simp [fedAfterLoad]⟩

/-- C3 amended witness: concrete modules `"a"` then `"b"`. -/
theorem claim_C3_amended_witness :
    settled (runShell envAllOk (initShell "a")
      [ShellEvent.mountShell, ShellEvent.navigate "b", ShellEvent.resume]) ∧
    (runShell envAllOk (initShell "a")
      [ShellEvent.mountShell, ShellEvent.navigate "b", ShellEvent.resume]).fed.mountedMfes
      = ["a"] ∧
    (runShell envAllOk (initShell "a")
      [ShellEvent.mountShell, ShellEvent.navigate "b", ShellEvent.resume]).mfeProp = "b" :=
  have happ := claim_C3_amended "a" "b" (by decide) (by decide) (by decide)
  ⟨happ.1, happ.2.1, happ.2.2.1⟩

theorem insertByOrder_perm (r : MfeRoute) (l : List MfeRoute) :
    (insertByOrder r l).Perm (r :: l) := by
  induction l with
  | nil => simp [insertByOrder]
  | cons x xs ih =>
      unfold insertByOrder
      split_ifs
      · exact (ih.cons x).trans (List.Perm.swap r x xs)
      · exact List.Perm.refl _

theorem sortByOrder_perm (l : List MfeRoute) : (sortByOrder l).Perm l := by
  induction l with
  | nil => simp [sortByOrder]
  | cons x xs ih =>
      have hstep : sortByOrder (x :: xs) = insertByOrder x (sortByOrder xs) := rfl
      rw [hstep]
      exact (insertByOrder_perm x _).trans (ih.cons x)

theorem sorted_insertByOrder (r : MfeRoute) (l : List MfeRoute)
    (hs : l.Pairwise (fun a b => orderKey a ≤ orderKey b)) :
    (insertByOrder r l).Pairwise (fun a b => orderKey a ≤ orderKey b) := by
  induction l with
  | nil => simp [insertByOrder]
  | cons x xs ih =>
      rcases List.pairwise_cons.mp hs with ⟨hx, hxs⟩
      unfold insertByOrder
      split_ifs with hle
      · refine List.pairwise_cons.mpr ⟨?_, ih hxs⟩
        intro b hb
        rcases List.mem_cons.mp ((insertByOrder_perm r xs).mem_iff.mp hb) with rfl | hbxs
        · exact hle
        · exact hx b hbxs
      · have hrx : orderKey r ≤ orderKey x := le_of_not_le hle
        refine List.pairwise_cons.mpr ⟨?_, List.pairwise_cons.mpr ⟨hx, hxs⟩⟩
        intro b hb
        rcases List.mem_cons.mp hb with rfl | hbxs
        · exact hrx
        · exact le_trans hrx (hx b hbxs)

theorem sorted_sortByOrder (l : List MfeRoute) :
    (sortByOrder l).Pairwise (fun a b => orderKey a ≤ orderKey b) := by
  induction l with
  | nil => simp [sortByOrder]
  | cons x xs ih => exact sorted_insertByOrder x _ ih

theorem mem_mapSet {β : Type} (m : List (String × β)) (k : String) (v : β)
    (q : String × β) (hq : q ∈ mapSet m k v) : q ∈ m ∨ q = (k, v) := by
  induction m with
  | nil => simpa [mapSet] using hq
  | cons p rest ih =>
      unfold mapSet at hq
      by_cases h : p.1 = k
      · rw [if_pos h] at hq
        rcases List.mem_cons.mp hq with rfl | hmem
        · right; rfl
        · left; exact List.mem_cons_of_mem _ hmem
      · rw [if_neg h] at hq
        rcases List.mem_cons.mp hq with rfl | hmem
        · left; exact List.mem_cons_self _ _
        · rcases ih hmem with h1 | h2
          · left; exact List.mem_cons_of_mem _ h1
          · right; exact h2

theorem mapGet_of_mem {β : Type} (m : List (String × β)) (k : String) (v : β)
    (hwf : MapWF m) (hmem : (k, v) ∈ m) : mapGet m k = some v := by
  induction m with
  | nil => simp at hmem
  | cons p rest ih =>
      simp only [MapWF, mapKeys, List.map_cons, List.nodup_cons] at hwf
      rcases List.mem_cons.mp hmem with heq | hmem'
      · rw [← heq]
        simp [mapGet]
      · have hp : p.1 ≠ k := by
          intro hpk
          exact hwf.1 (hpk ▸ List.mem_map_of_mem (·.1) hmem')
        simp only [mapGet, hp, if_false]
        exact ih hwf.2 hmem'

theorem mapGet_isSome_iff {β : Type} (m : List (String × β)) (p : String) :
    (mapGet m p).isSome ↔ p ∈ mapKeys m := by
  induction m with
  | nil => simp [mapGet, mapKeys]
  | cons q rest ih =>
      by_cases h : q.1 = p
      · simp [mapGet, mapKeys, h]
      · simp [mapGet, mapKeys, h, ih, Ne.symm h]

theorem mapGet_routeFold (l : List MfeRoute) (m0 : List (String × MfeRoute)) (p : String) :
    mapGet (l.foldl (fun m r => mapSet m r.path r) m0) p =
      match (l.filter (fun r => r.path == p)).getLast? with
      | some r => some r
      | none => mapGet m0 p := by
  induction l using List.reverseRecOn with
  | nil => simp
  | append_singleton xs r ih =>
      rw [List.foldl_append, List.filter_append]
      simp only [List.foldl_cons, List.foldl_nil]
      by_cases h : r.path = p
      · have hfil : List.filter (fun r => r.path == p) [r] = [r] := by
          simp [List.filter_singleton, h]
        rw [hfil, List.getLast?_concat, h, mapGet_set_self]
      · have hfil : List.filter (fun r => r.path == p) [r] = [] := by
          simp [List.filter_singleton, h]
        rw [hfil, List.append_nil, mapGet_set_ne _ _ _ _ (fun hpr => h hpr.symm), ih]

theorem mapWF_routeFold (l : List MfeRoute) (m0 : List (String × MfeRoute))
    (hwf : MapWF m0) : MapWF (l.foldl (fun m r => mapSet m r.path r) m0) := by
  induction l generalizing m0 with
  | nil => exact hwf
  | cons r rest ih => exact ih _ (mapWF_set _ _ _ hwf)

theorem routeFold_coherent (l : List MfeRoute) (m0 : List (String × MfeRoute))
    (h0 : ∀ q ∈ m0, q.2.path = q.1) :
    ∀ q ∈ l.foldl (fun m r => mapSet m r.path r) m0, q.2.path = q.1 := by
  induction l generalizing m0 with
  | nil => exact h0
  | cons r rest ih =>
      refine ih _ ?_
      intro q hq
      rcases mem_mapSet _ _ _ q hq with hm | heq
      · exact h0 q hm
      · rw [heq]

theorem mem_of_getLast?_eq {α : Type} {l : List α} {x : α}
    (h : l.getLast? = some x) : x ∈ l := by
  obtain ⟨hne, heq⟩ := List.mem_getLast?_eq_getLast (Option.mem_def.mpr h)
  rw [heq]
  exact List.getLast_mem hne

/-- Every sorted-table entry of `secondaryNavRoutes` is the value the route
map holds at the entry's own path. -/
theorem secondaryNav_lookup (children : List MenuChild) (dynRoutes : List MfeRoute)
    (r : MfeRoute) (hr : r ∈ secondaryNavRoutes children dynRoutes) :
    mapGet (buildRouteMap (children.map childToRoute) dynRoutes) r.path = some r := by
  have hwfM : MapWF (buildRouteMap (children.map childToRoute) dynRoutes) :=
    mapWF_routeFold _ [] (by simp [MapWF, mapKeys])
  have hcoh : ∀ q ∈ buildRouteMap (children.map childToRoute) dynRoutes,
      q.2.path = q.1 :=
    routeFold_coherent _ [] (by simp)
  have hrv : r ∈ (buildRouteMap (children.map childToRoute) dynRoutes).map (·.2) :=
    (sortByOrder_perm _).mem_iff.mp hr
  obtain ⟨q, hqM, hq2⟩ := List.mem_map.mp hrv
  have hq : q = (r.path, r) := by
    have h1 := hcoh q hqM
    rw [hq2] at h1
    exact Prod.ext h1.symm hq2
  exact mapGet_of_mem _ _ _ hwfM (hq ▸ hqM)

/-- C9: the merged secondary-navigation table of the active module holds
exactly one entry per path; it is sorted by `order` ascending with a missing
`order` treated as `0`; every entry originates from either the dynamically
registered routes or the static menu children; an entry whose path is also
dynamically registered is the dynamic entry (dynamic replaces static on a
shared path, so static `{path:"/a", label:"Static"}` merged with dynamic
`{path:"/a", label:"Dynamic"}` leaves one `/a` entry, the dynamic one); and a
path occurs in the table iff it is a static child path or a dynamic path. -/
theorem claim_C9_route_merge (children : List MenuChild) (dynRoutes : List MfeRoute) :
    ((secondaryNavRoutes children dynRoutes).map (·.path)).Nodup ∧
    (secondaryNavRoutes children dynRoutes).Pairwise
      (fun a b => orderKey a ≤ orderKey b) ∧
    (∀ r ∈ secondaryNavRoutes children dynRoutes,
      r ∈ dynRoutes ∨ r ∈ children.map childToRoute) ∧
    (∀ r ∈ secondaryNavRoutes children dynRoutes,
      (∃ d ∈ dynRoutes, d.path = r.path) → r ∈ dynRoutes) ∧
    (∀ p, p ∈ (secondaryNavRoutes children dynRoutes).map (·.path) ↔
      ((∃ c ∈ children, c.path = p) ∨ ∃ d ∈ dynRoutes, d.path = p)) := by
  have hwfM : MapWF (buildRouteMap (children.map childToRoute) dynRoutes) :=
    mapWF_routeFold _ [] (by simp [MapWF, mapKeys])
  have hcoh : ∀ q ∈ buildRouteMap (children.map childToRoute) dynRoutes,
      q.2.path = q.1 :=
    routeFold_coherent _ [] (by simp)
  have hperm : (secondaryNavRoutes children dynRoutes).Perm
      ((buildRouteMap (children.map childToRoute) dynRoutes).map (·.2)) :=
    sortByOrder_perm _
  have hmapeq : ((buildRouteMap (children.map childToRoute) dynRoutes).map (·.2)).map
        (·.path)
      = mapKeys (buildRouteMap (children.map childToRoute) dynRoutes) := by
    unfold mapKeys
    rw [List.map_map]
    exact List.map_congr_left (fun q hq => hcoh q hq)
  refine ⟨?_, sorted_sortByOrder _, ?_, ?_, ?_⟩
  · have hpp := (hperm.map (·.path)).nodup_iff
    rw [hmapeq] at hpp
    exact hpp.mpr hwfM
  · intro r hr
    have h1 := secondaryNav_lookup children dynRoutes r hr
    unfold buildRouteMap at h1
    rw [mapGet_routeFold] at h1
    cases hlast : ((children.map childToRoute ++ dynRoutes).filter
        (fun q => q.path == r.path)).getLast? with
    | none => rw [hlast] at h1; exact absurd h1 (by simp [mapGet])
    | some x =>
        rw [hlast] at h1
        have hx : x = r := by simpa using h1
        have hxin : x ∈ children.map childToRoute ++ dynRoutes :=
          (List.mem_filter.mp (mem_of_getLast?_eq hlast)).1
        rw [hx] at hxin
        exact (List.mem_append.mp hxin).symm
  · intro r hr hd
    obtain ⟨d, hdm, hdp⟩ := hd
    have h1 := secondaryNav_lookup children dynRoutes r hr
    unfold buildRouteMap at h1
    rw [mapGet_routeFold, List.filter_append] at h1
    have hne : dynRoutes.filter (fun q => q.path == r.path) ≠ [] :=
      List.ne_nil_of_mem (List.mem_filter.mpr ⟨hdm, by simp [hdp]⟩)
    rw [List.getLast?_append_of_ne_nil _ hne] at h1
    cases hlast : (dynRoutes.filter (fun q => q.path == r.path)).getLast? with
    | none => exact absurd (List.getLast?_isSome.mpr hne) (by simp [hlast])
    | some x =>
        rw [hlast] at h1
        have hx : x = r := by simpa using h1
        have hxin : x ∈ dynRoutes := (List.mem_filter.mp (mem_of_getLast?_eq hlast)).1
        rw [hx] at hxin
        exact hxin
  · intro p
    have hpp : p ∈ (secondaryNavRoutes children dynRoutes).map (·.path) ↔
        p ∈ mapKeys (buildRouteMap (children.map childToRoute) dynRoutes) := by
      rw [← hmapeq]
      exact (hperm.map (·.path)).mem_iff
    rw [hpp, ← mapGet_isSome_iff]
    unfold buildRouteMap
    rw [mapGet_routeFold]
    cases hlast : ((children.map childToRoute ++ dynRoutes).filter
        (fun q => q.path == p)).getLast? with
    | none =>
        have hnil : (children.map childToRoute ++ dynRoutes).filter
            (fun q => q.path == p) = [] := by
          cases hres : (children.map childToRoute ++ dynRoutes).filter
              (fun q => q.path == p) with
          | nil => rfl
          | cons y ys =>
              exfalso
              rw [hres] at hlast
              have hs : ((y :: ys : List MfeRoute).getLast?).isSome = true :=
                List.getLast?_isSome.mpr (by simp)
              rw [hlast] at hs
              simp at hs
        rw [List.filter_eq_nil_iff] at hnil
        simp only [Option.isSome_none, Bool.false_eq_true, false_iff, mapGet]
        push_neg
        refine ⟨fun c hc => ?_, fun d hdm => ?_⟩
        · have := hnil (childToRoute c) (List.mem_append_left _
            (List.mem_map_of_mem childToRoute hc))
          simpa [childToRoute] using this
        · have := hnil d (List.mem_append_right _ hdm)
          simpa using this
    | some x =>
        have hxin := List.mem_filter.mp (mem_of_getLast?_eq hlast)
        have hxp : x.path = p := by simpa using hxin.2
        simp only [Option.isSome_some, true_iff]
        rcases List.mem_append.mp hxin.1 with hs | hd
        · obtain ⟨c, hc, hcx⟩ := List.mem_map.mp hs
          left
          exact ⟨c, hc, by rw [show c.path = (childToRoute c).path from rfl, hcx, hxp]⟩
        · right
          exact ⟨x, hd, hxp⟩

/-- C9 witness: the spec's concrete example — static `{path:"/a",
label:"Static"}` and dynamic `{path:"/a", label:"Dynamic"}` merge to the
single dynamic `/a` entry. -/
theorem claim_C9_route_merge_witness :
    secondaryNavRoutes [{ label := "Static", path := "/a" }]
        [{ label := "Dynamic", path := "/a" }]
      = [{ label := "Dynamic", path := "/a" }] ∧
    ((secondaryNavRoutes [{ label := "Static", path := "/a" }]
        [{ label := "Dynamic", path := "/a" }]).map (·.path)).Nodup ∧
    (({ label := "Dynamic", path := "/a" } : MfeRoute) ∈
      ([{ label := "Dynamic", path := "/a" }] : List MfeRoute)) :=
  have happ := claim_C9_route_merge [{ label := "Static", path := "/a" }]
    [{ label := "Dynamic", path := "/a" }]
  ⟨by decide, happ.1,
    happ.2.2.2.1 { label := "Dynamic", path := "/a" } (by decide)
      ⟨{ label := "Dynamic", path := "/a" }, by decide, rfl⟩⟩

end MfeShell
